import Mathlib

/-!
Verification of `stockprep` (`src/stock_data.py`) against its specification.

The pandas price tables are embedded shallowly:

* A cell of a price table is an IEEE-754-like value over exact rationals:
  `NaN` (pandas' missing marker), signed infinities, or a finite value.
  Rounding is irrelevant to the properties considered here (they concern the
  NaN/infinity structure and exact identities such as `x / x = 1`, which IEEE
  doubles also satisfy exactly); ℚ has a single zero, so the two IEEE signed
  zeros are identified.
* A `DataFrame` is a date index together with labelled columns
  (`DF` below); all source operations act columnwise along the date axis.
* Methods of the Python class `StockData` become functions on a `StockData`
  structure; a raised exception becomes an `Except.error`.
-/

/-- A cell of a price table: `nan` is pandas' missing value (NaN), `pinf` and
`ninf` are the IEEE infinities, `val q` a finite float modelled exactly. -/
inductive Cell where
  | nan
  | pinf
  | ninf
  | val (q : ℚ)
deriving DecidableEq

/-- `pd.isna` on a cell: true exactly on NaN (infinities are not missing). -/
def Cell.isna : Cell → Bool
  | .nan => true
  | _ => false

/-- IEEE subtraction on cells (NaN propagates; `∞ - ∞ = NaN`). -/
def Cell.sub : Cell → Cell → Cell
  | .nan, _ => .nan
  | _, .nan => .nan
  | .pinf, .pinf => .nan
  | .pinf, _ => .pinf
  | .ninf, .ninf => .nan
  | .ninf, _ => .ninf
  | .val _, .pinf => .ninf
  | .val _, .ninf => .pinf
  | .val a, .val b => .val (a - b)

/-- IEEE division on cells: NaN propagates, `∞ / ∞ = NaN`, `0 / 0 = NaN`,
and a nonzero finite value divided by zero is a signed infinity. -/
def Cell.div : Cell → Cell → Cell
  | .nan, _ => .nan
  | _, .nan => .nan
  | .pinf, .pinf => .nan
  | .pinf, .ninf => .nan
  | .ninf, .pinf => .nan
  | .ninf, .ninf => .nan
  | .pinf, .val b => if b < 0 then .ninf else .pinf
  | .ninf, .val b => if b < 0 then .pinf else .ninf
  | .val _, .pinf => .val 0
  | .val _, .ninf => .val 0
  | .val a, .val b =>
    if b = 0 then (if a = 0 then .nan else if 0 < a then .pinf else .ninf)
    else .val (a / b)

/-- A cell that is not an infinity (it may be NaN or finite). -/
def Cell.notInf (x : Cell) : Prop := x ≠ Cell.pinf ∧ x ≠ Cell.ninf

/-- Last non-missing value of a column segment, starting from accumulator
`acc` (the value carried in from earlier rows). -/
def lastD (acc : Option Cell) (l : List Cell) : Option Cell :=
  l.foldl (fun a x => if Cell.isna x then a else some x) acc

/-- First non-missing value of a column segment. -/
def firstD : List Cell → Option Cell
  | [] => none
  | x :: xs => if Cell.isna x then firstD xs else some x

/-- `df.ffill()` on one column, threading the last value seen so far:
a missing cell takes the nearest preceding non-missing value, if any. -/
def ffillGo : Option Cell → List Cell → List Cell
  | _, [] => []
  | acc, x :: xs =>
    if Cell.isna x then (acc.getD x) :: ffillGo acc xs
    else x :: ffillGo (some x) xs

/-- `df.ffill()` on one column. -/
def ffillCol (c : List Cell) : List Cell := ffillGo none c

/-- `df.bfill()` on one column: a missing cell takes the nearest following
non-missing value, if any. -/
def bfillCol : List Cell → List Cell
  | [] => []
  | x :: xs => (if Cell.isna x then (firstD xs).getD x else x) :: bfillCol xs

/-- `StockData._clean` on one column: `df.ffill().bfill()`. -/
def cleanCol (c : List Cell) : List Cell := bfillCol (ffillCol c)

/-- `pct_change` body on one column past the first row: each cell is
`cur / prev - 1` (pandas computes `df / df.shift(1) - 1`). -/
def pctGo : Cell → List Cell → List Cell
  | _, [] => []
  | prev, y :: ys => (Cell.sub (Cell.div y prev) (Cell.val 1)) :: pctGo y ys

/-- `df.pct_change()` on one column: the first row has no predecessor and is
NaN; row `t+1` is `c[t+1] / c[t] - 1`. -/
def pctCol : List Cell → List Cell
  | [] => []
  | x :: xs => Cell.nan :: pctGo x xs

/-- One column of `self.prices / self.prices.iloc[0]`: each cell divided by
the column's first cell. -/
def normCol (c : List Cell) : List Cell :=
  c.map (fun x => Cell.div x (c.headD Cell.nan))

/-- One column of `(self.prices / self.prices.iloc[0]) - 1`. -/
def cumCol (c : List Cell) : List Cell :=
  c.map (fun x => Cell.sub (Cell.div x (c.headD Cell.nan)) (Cell.val 1))

/-- A pandas `DataFrame`: a date index (dates as opaque naturals, ascending in
actual use) and one labelled cell column per symbol; in a well-formed frame
every column has the same length as the index. -/
structure DF where
  index : List Nat
  cols : List (String × List Cell)
deriving DecidableEq

/-- `StockData._clean`: `df.ffill().bfill()`, columnwise along the date
axis. -/
def cleanDF (df : DF) : DF :=
  ⟨df.index, df.cols.map (fun p => (p.1, cleanCol p.2))⟩

/-- `self.prices / self.prices.iloc[0]` (after the `iloc[0]` bounds check has
succeeded): columnwise division by the first row. -/
def normalizeDF (df : DF) : DF :=
  ⟨df.index, df.cols.map (fun p => (p.1, normCol p.2))⟩

/-- `(self.prices / self.prices.iloc[0]) - 1` (after the bounds check). -/
def cumulativeDF (df : DF) : DF :=
  ⟨df.index, df.cols.map (fun p => (p.1, cumCol p.2))⟩

/-- `df.pct_change()`: pandas' default `fill_method` pads (forward-fills) each
column before differencing, hence the inner `ffillCol`. -/
def pctChangeDF (df : DF) : DF :=
  ⟨df.index, df.cols.map (fun p => (p.1, pctCol (ffillCol p.2)))⟩

/-- `df.iloc[1:]`: drop the first row (never raises, even on an empty frame). -/
def dfTail (df : DF) : DF :=
  ⟨df.index.drop 1, df.cols.map (fun p => (p.1, p.2.drop 1))⟩

/-- Python exceptions that can surface from the container: `ValueError`
(raised by the derived-metric guards), `IndexError` (raised by `iloc[0]` on a
frame with no rows), and arbitrary exceptions escaping a fetcher. -/
inductive Exn where
  | valueError (msg : String)
  | indexError
  | fetchError (msg : String)
deriving DecidableEq

/-- The fetcher contract: `(symbols, start, end) -> DataFrame`, possibly
raising. -/
def FetchFn : Type := List String → String → String → Except Exn DF

/-- The `StockData` container: the bound fetcher plus the nullable `raw` and
`prices` tables (`None` until the first successful `load`). -/
structure StockData where
  fetch : FetchFn
  raw : Option DF
  prices : Option DF

/-- `StockData.__init__`: stores the fetcher; `raw` and `prices` start absent. -/
def StockData.init (f : FetchFn) : StockData := ⟨f, none, none⟩

/-- `StockData.load`: runs the fetcher, stores its output as `raw` and the
cleaned table as `prices`, returning the container for chaining.  If the
fetcher raises, the exception escapes before either assignment runs, so the
error case carries the container state at that point — the unchanged `sd`. -/
def StockData.load (sd : StockData) (symbols : List String) (s e : String) :
    Except (Exn × StockData) StockData :=
  match sd.fetch symbols s e with
  | .error ex => .error (ex, sd)
  | .ok df => .ok { sd with raw := some df, prices := some (cleanDF df) }

/-- `StockData.normalize`: guard (`ValueError` when `prices is None`), then
`self.prices / self.prices.iloc[0]`; `iloc[0]` raises `IndexError` when the
frame has zero rows. -/
def StockData.normalize (sd : StockData) : Except Exn DF :=
  match sd.prices with
  | none => .error (.valueError "No data loaded. Call load() first.")
  | some p =>
    if p.index.length = 0 then .error .indexError
    else .ok (normalizeDF p)

/-- `StockData.daily_returns`: guard, then `self.prices.pct_change().iloc[1:]`. -/
def StockData.daily_returns (sd : StockData) : Except Exn DF :=
  match sd.prices with
  | none => .error (.valueError "No data loaded. Call load() first.")
  | some p => .ok (dfTail (pctChangeDF p))

/-- `StockData.cumulative_returns`: guard, then
`(self.prices / self.prices.iloc[0]) - 1`. -/
def StockData.cumulative_returns (sd : StockData) : Except Exn DF :=
  match sd.prices with
  | none => .error (.valueError "No data loaded. Call load() first.")
  | some p =>
    if p.index.length = 0 then .error .indexError
    else .ok (cumulativeDF p)

/-- `normalize` as a state transformer: the method body assigns to no field of
`self`, so its effect on the container is the identity. -/
def StockData.normalizeCall (sd : StockData) : Except Exn DF × StockData :=
  (sd.normalize, sd)

/-- `daily_returns` as a state transformer (no field assignment in the body). -/
def StockData.daily_returnsCall (sd : StockData) : Except Exn DF × StockData :=
  (sd.daily_returns, sd)

/-- `cumulative_returns` as a state transformer (no field assignment in the
body). -/
def StockData.cumulative_returnsCall (sd : StockData) : Except Exn DF × StockData :=
  (sd.cumulative_returns, sd)

theorem Cell.isna_iff (x : Cell) : Cell.isna x = true ↔ x = Cell.nan := by
  cases x <;> simp [Cell.isna]

theorem lastD_nil (acc : Option Cell) : lastD acc [] = acc := rfl

theorem lastD_cons (acc : Option Cell) (x : Cell) (l : List Cell) :
    lastD acc (x :: l) = lastD (if Cell.isna x then acc else some x) l := rfl

theorem lastD_concat (acc : Option Cell) (l : List Cell) (x : Cell) :
    lastD acc (l ++ [x]) = if Cell.isna x then lastD acc l else some x := by
  simp [lastD, List.foldl_append]

theorem lastD_isna_false :
    ∀ (l : List Cell) (acc : Option Cell),
      (∀ w, acc = some w → Cell.isna w = false) →
      ∀ v, lastD acc l = some v → Cell.isna v = false := by
  intro l
  induction l with
  | nil => intro acc hacc v hv; exact hacc v hv
  | cons x xs ih =>
    intro acc hacc v hv
    rw [lastD_cons] at hv
    refine ih _ ?_ v hv
    intro w hw
    by_cases hx : Cell.isna x = true
    · rw [if_pos hx] at hw; exact hacc w hw
    · rw [if_neg hx] at hw
      cases hw
      simpa using hx

theorem lastD_eq_none :
    ∀ (l : List Cell) (acc : Option Cell), lastD acc l = none →
      acc = none ∧ ∀ x ∈ l, Cell.isna x = true := by
  intro l
  induction l with
  | nil => intro acc h; exact ⟨h, by simp⟩
  | cons x xs ih =>
    intro acc h
    rw [lastD_cons] at h
    obtain ⟨h1, h2⟩ := ih _ h
    by_cases hx : Cell.isna x = true
    · rw [if_pos hx] at h1
      refine ⟨h1, ?_⟩
      intro y hy
      rcases List.mem_cons.mp hy with rfl | hy'
      · exact hx
      · exact h2 y hy'
    · rw [if_neg hx] at h1
      cases h1

theorem firstD_eq_none :
    ∀ l : List Cell, firstD l = none ↔ ∀ x ∈ l, Cell.isna x = true := by
  intro l
  induction l with
  | nil => simp [firstD]
  | cons x xs ih =>
    by_cases hx : Cell.isna x = true
    · simp [firstD, hx, ih, List.forall_mem_cons]
    · simp [firstD, hx, List.forall_mem_cons]

theorem firstD_isna_false :
    ∀ (l : List Cell) (v : Cell), firstD l = some v → Cell.isna v = false := by
  intro l
  induction l with
  | nil => intro v h; cases h
  | cons x xs ih =>
    intro v h
    by_cases hx : Cell.isna x = true
    · simp only [firstD, if_pos hx] at h
      exact ih v h
    · simp only [firstD, if_neg hx, Option.some.injEq] at h
      cases h
      simpa using hx

theorem ffillGo_length : ∀ (c : List Cell) (acc : Option Cell),
    (ffillGo acc c).length = c.length := by
  intro c
  induction c with
  | nil => intro acc; rfl
  | cons x xs ih =>
    intro acc
    by_cases hx : Cell.isna x = true <;> simp [ffillGo, hx, ih]

theorem take_succ_getD :
    ∀ (l : List Cell) (i : Nat), i < l.length →
      l.take (i + 1) = l.take i ++ [l.getD i Cell.nan] := by
  intro l
  induction l with
  | nil => intro i h; simp at h
  | cons x xs ih =>
    intro i h
    cases i with
    | zero => simp
    | succ j =>
      simp only [List.take_succ_cons, List.getD_cons_succ, List.cons_append, List.cons.injEq]
      exact ⟨by trivial, ih j (by simpa using h)⟩

theorem ffillGo_getD :
    ∀ (c : List Cell) (acc : Option Cell) (i : Nat), i < c.length →
      (ffillGo acc c).getD i Cell.nan =
        (lastD acc (c.take (i + 1))).getD (c.getD i Cell.nan) := by
  intro c
  induction c with
  | nil => intro acc i h; simp at h
  | cons x xs ih =>
    intro acc i h
    cases i with
    | zero =>
      by_cases hx : Cell.isna x = true <;>
        simp [ffillGo, hx, lastD_cons, lastD_nil]
    | succ j =>
      have hj : j < xs.length := by simpa using h
      by_cases hx : Cell.isna x = true
      · simp only [ffillGo, if_pos hx, List.getD_cons_succ, List.take_succ_cons,
          lastD_cons]
        exact ih acc j hj
      · simp only [ffillGo, if_neg hx, List.getD_cons_succ, List.take_succ_cons,
          lastD_cons]
        exact ih (some x) j hj

theorem ffillGo_drop :
    ∀ (c : List Cell) (acc : Option Cell) (j : Nat),
      (ffillGo acc c).drop j = ffillGo (lastD acc (c.take j)) (c.drop j) := by
  intro c
  induction c with
  | nil => intro acc j; simp [ffillGo, lastD_nil]
  | cons x xs ih =>
    intro acc j
    cases j with
    | zero => simp [lastD_nil]
    | succ k =>
      by_cases hx : Cell.isna x = true
      · simp only [ffillGo, if_pos hx, List.drop_succ_cons, List.take_succ_cons, lastD_cons]
        exact ih acc k
      · simp only [ffillGo, if_neg hx, List.drop_succ_cons, List.take_succ_cons, lastD_cons]
        exact ih (some x) k

theorem firstD_ffillGo_none : ∀ c : List Cell, firstD (ffillGo none c) = firstD c := by
  intro c
  induction c with
  | nil => rfl
  | cons x xs ih =>
    by_cases hx : Cell.isna x = true
    · simp [ffillGo, firstD, hx, ih]
    · simp [ffillGo, firstD, hx]

theorem bfillCol_length : ∀ c : List Cell, (bfillCol c).length = c.length := by
  intro c
  induction c with
  | nil => rfl
  | cons x xs ih => simp [bfillCol, ih]

theorem bfillCol_getD :
    ∀ (c : List Cell) (i : Nat), i < c.length →
      (bfillCol c).getD i Cell.nan =
        if Cell.isna (c.getD i Cell.nan) = true then
          (firstD (c.drop (i + 1))).getD (c.getD i Cell.nan)
        else c.getD i Cell.nan := by
  intro c
  induction c with
  | nil => intro i h; simp at h
  | cons x xs ih =>
    intro i h
    cases i with
    | zero => simp [bfillCol]
    | succ j => simpa [bfillCol] using ih j (by simpa using h)

theorem cleanCol_length (c : List Cell) : (cleanCol c).length = c.length := by
  simp [cleanCol, ffillCol, bfillCol_length, ffillGo_length]

theorem cleanCol_getD (c : List Cell) (i : Nat) (h : i < c.length) :
    (cleanCol c).getD i Cell.nan =
      (lastD none (c.take (i + 1))).getD
        ((firstD (c.drop (i + 1))).getD (c.getD i Cell.nan)) := by
  have hfl : i < (ffillCol c).length := by
    simpa [ffillCol, ffillGo_length] using h
  have hb := bfillCol_getD (ffillCol c) i hfl
  have hf := ffillGo_getD c none i h
  cases hl : lastD none (c.take (i + 1)) with
  | some v =>
    have hv : Cell.isna v = false :=
      lastD_isna_false _ none (fun w hw => by cases hw) v hl
    have hx : (ffillCol c).getD i Cell.nan = v := by
      rw [show ffillCol c = ffillGo none c from rfl, hf, hl]; rfl
    rw [show cleanCol c = bfillCol (ffillCol c) from rfl, hb, hx, hv]
    simp
  | none =>
    obtain ⟨-, hall⟩ := lastD_eq_none _ none hl
    have hmem : c.getD i Cell.nan ∈ c.take (i + 1) := by
      rw [take_succ_getD c i h]
      exact List.mem_append_right _ (by simp)
    have hina : Cell.isna (c.getD i Cell.nan) = true := hall _ hmem
    have hx : (ffillCol c).getD i Cell.nan = c.getD i Cell.nan := by
      rw [show ffillCol c = ffillGo none c from rfl, hf, hl]; rfl
    have hdrop : (ffillCol c).drop (i + 1) = ffillGo none (c.drop (i + 1)) := by
      rw [show ffillCol c = ffillGo none c from rfl, ffillGo_drop, hl]
    rw [show cleanCol c = bfillCol (ffillCol c) from rfl, hb, hx, if_pos hina, hdrop,
      firstD_ffillGo_none]
    rfl

theorem ffillGo_all_na :
    ∀ c : List Cell, (∀ x ∈ c, Cell.isna x = true) → ffillGo none c = c := by
  intro c
  induction c with
  | nil => intro _; rfl
  | cons x xs ih =>
    intro h
    simp only [ffillGo, if_pos (h x (by simp)), Option.getD_none, List.cons.injEq]
    exact ⟨by trivial, ih (fun y hy => h y (by simp [hy]))⟩

theorem ffillGo_no_na :
    ∀ c : List Cell, (∀ x ∈ c, Cell.isna x = false) → ∀ acc, ffillGo acc c = c := by
  intro c
  induction c with
  | nil => intro _ acc; rfl
  | cons x xs ih =>
    intro h acc
    have hx : ¬ Cell.isna x = true := by simp [h x (by simp)]
    simp only [ffillGo, if_neg hx, List.cons.injEq]
    exact ⟨by trivial, ih (fun y hy => h y (by simp [hy])) (some x)⟩

theorem bfillCol_all_na :
    ∀ c : List Cell, (∀ x ∈ c, Cell.isna x = true) → bfillCol c = c := by
  intro c
  induction c with
  | nil => intro _; rfl
  | cons x xs ih =>
    intro h
    have hfx : firstD xs = none :=
      (firstD_eq_none xs).mpr (fun y hy => h y (by simp [hy]))
    simp only [bfillCol, if_pos (h x (by simp)), hfx, Option.getD_none, List.cons.injEq]
    exact ⟨by trivial, ih (fun y hy => h y (by simp [hy]))⟩

theorem cleanCol_all_na (c : List Cell) (h : ∀ x ∈ c, Cell.isna x = true) :
    cleanCol c = c := by
  rw [show cleanCol c = bfillCol (ffillCol c) from rfl,
    show ffillCol c = ffillGo none c from rfl, ffillGo_all_na c h]
  exact bfillCol_all_na c h

theorem cleanCol_no_na (c : List Cell) (hex : ∃ x ∈ c, Cell.isna x = false) :
    ∀ i, i < c.length → Cell.isna ((cleanCol c).getD i Cell.nan) = false := by
  intro i h
  rw [cleanCol_getD c i h]
  cases hl : lastD none (c.take (i + 1)) with
  | some v =>
    simpa using lastD_isna_false _ none (fun w hw => by cases hw) v hl
  | none =>
    obtain ⟨-, hall⟩ := lastD_eq_none _ none hl
    obtain ⟨y, hy, hyna⟩ := hex
    have hy' : y ∈ c.drop (i + 1) := by
      have hsplit := List.take_append_drop (i + 1) c
      rcases List.mem_append.mp (by rw [hsplit]; exact hy) with h1 | h2
      · exact absurd (hall y h1) (by simp [hyna])
      · exact h2
    cases hf : firstD (c.drop (i + 1)) with
    | none =>
      exact absurd ((firstD_eq_none _).mp hf y hy') (by simp [hyna])
    | some w =>
      simpa using firstD_isna_false _ w hf

theorem cleanCol_mem_no_na (c : List Cell) (hex : ∃ x ∈ c, Cell.isna x = false) :
    ∀ y ∈ cleanCol c, Cell.isna y = false := by
  intro y hy
  obtain ⟨i, hi, hiy⟩ := List.mem_iff_getElem.mp hy
  have hlen : i < c.length := by
    have := cleanCol_length c
    omega
  have h := cleanCol_no_na c hex i hlen
  rw [List.getD_eq_getElem _ _ hi] at h
  exact hiy ▸ h

theorem ffillCol_cleanCol (c : List Cell) : ffillCol (cleanCol c) = cleanCol c := by
  by_cases hall : ∀ x ∈ c, Cell.isna x = true
  · rw [cleanCol_all_na c hall]
    exact ffillGo_all_na c hall
  · push_neg at hall
    obtain ⟨x, hx, hxna⟩ := hall
    have hx' : Cell.isna x = false := by simpa using hxna
    exact ffillGo_no_na (cleanCol c) (cleanCol_mem_no_na c ⟨x, hx, hx'⟩) none

theorem pctGo_length : ∀ (c : List Cell) (prev : Cell),
    (pctGo prev c).length = c.length := by
  intro c
  induction c with
  | nil => intro _; rfl
  | cons y ys ih => intro prev; simp [pctGo, ih]

theorem pctCol_length : ∀ c : List Cell, (pctCol c).length = c.length := by
  intro c
  cases c with
  | nil => rfl
  | cons x xs => simp [pctCol, pctGo_length]

theorem pctGo_getD :
    ∀ (c : List Cell) (prev : Cell) (t : Nat), t < c.length →
      (pctGo prev c).getD t Cell.nan =
        Cell.sub (Cell.div (c.getD t Cell.nan) ((prev :: c).getD t Cell.nan))
          (Cell.val 1) := by
  intro c
  induction c with
  | nil => intro prev t h; simp at h
  | cons y ys ih =>
    intro prev t h
    cases t with
    | zero => simp [pctGo]
    | succ u => simpa [pctGo] using ih y u (by simpa using h)

theorem pctCol_drop_getD (c : List Cell) (t : Nat) (h : t + 1 < c.length) :
    ((pctCol c).drop 1).getD t Cell.nan =
      Cell.sub (Cell.div (c.getD (t + 1) Cell.nan) (c.getD t Cell.nan))
        (Cell.val 1) := by
  cases c with
  | nil => simp at h
  | cons x xs =>
    have := pctGo_getD xs x t (by simpa using h)
    simpa [pctCol] using this

theorem isna_sub_one (x : Cell) : Cell.isna (Cell.sub x (Cell.val 1)) = Cell.isna x := by
  cases x <;> rfl

theorem getD_map_cell (f : Cell → Cell) (c : List Cell) (i : Nat) (h : i < c.length) :
    (c.map f).getD i Cell.nan = f (c.getD i Cell.nan) := by
  rw [List.getD_eq_getElem _ _ (by simpa using h), List.getD_eq_getElem _ _ h,
    List.getElem_map]

theorem div_nan_right (x : Cell) : Cell.div x Cell.nan = Cell.nan := by
  cases x <;> rfl

theorem sub_nan_right (x : Cell) : Cell.sub x Cell.nan = Cell.nan := by
  cases x <;> rfl

theorem sub_div_eq_div_sub_one (a b : Cell) (ha : Cell.notInf a) (hb : Cell.notInf b) :
    Cell.div (Cell.sub a b) b = Cell.sub (Cell.div a b) (Cell.val 1) := by
  cases a with
  | pinf => exact absurd rfl ha.1
  | ninf => exact absurd rfl ha.2
  | nan => cases b <;> rfl
  | val q =>
    cases b with
    | pinf => exact absurd rfl hb.1
    | ninf => exact absurd rfl hb.2
    | nan => rfl
    | val r =>
      by_cases hr : r = 0
      · subst hr
        by_cases hq : q = 0
        · simp [Cell.sub, Cell.div, hq]
        · by_cases hq' : 0 < q
          · simp [Cell.sub, Cell.div, hq, hq']
          · simp [Cell.sub, Cell.div, hq, hq']
      · simp only [Cell.sub, Cell.div, if_neg hr, Cell.val.injEq]
        rw [sub_div, div_self hr]

/-! Concrete fixtures used by witnesses and counterexamples. -/

/-- The empty frame a fetcher returns when zero symbols resolve. -/
def emptyDF : DF := ⟨[], []⟩

/-- A fetcher that resolves zero symbols. -/
def fetchEmpty : FetchFn := fun _ _ _ => Except.ok emptyDF

/-- A container after `load` of an empty fetch result. -/
def sdEmpty : StockData := ⟨fetchEmpty, some emptyDF, some (cleanDF emptyDF)⟩

/-- A frame with two dates and no columns. -/
def dfNoCols : DF := ⟨[10, 11], []⟩

/-- A fetcher returning dates but no columns. -/
def fetchNoCols : FetchFn := fun _ _ _ => Except.ok dfNoCols

/-- A container after `load` of a column-free fetch result. -/
def sdNoCols : StockData := ⟨fetchNoCols, some dfNoCols, some (cleanDF dfNoCols)⟩

/-- A one-cell frame whose only price is 0.0 (non-missing). -/
def dfZero : DF := ⟨[7], [("A", [Cell.val 0])]⟩

/-- A fetcher returning `dfZero`. -/
def fetchZero : FetchFn := fun _ _ _ => Except.ok dfZero

/-- A container after `load` of `dfZero`. -/
def sdZero : StockData := ⟨fetchZero, some dfZero, some (cleanDF dfZero)⟩

/-- A two-row frame with first price 1.0. -/
def dfOne : DF := ⟨[3, 4], [("A", [Cell.val 1, Cell.val 3])]⟩

/-- A fetcher returning `dfOne`. -/
def fetchOne : FetchFn := fun _ _ _ => Except.ok dfOne

/-- A container after `load` of `dfOne`. -/
def sdOne : StockData := ⟨fetchOne, some dfOne, some (cleanDF dfOne)⟩

/-- A two-row frame whose first price is 0.0 and second is 5.0. -/
def dfDivZero : DF := ⟨[1, 2], [("A", [Cell.val 0, Cell.val 5])]⟩

/-- A fetcher returning `dfDivZero`. -/
def fetchDivZero : FetchFn := fun _ _ _ => Except.ok dfDivZero

/-- A container after `load` of `dfDivZero`. -/
def sdDivZero : StockData := ⟨fetchDivZero, some dfDivZero, some (cleanDF dfDivZero)⟩

/-- A fetcher that always raises. -/
def fetchBoom : FetchFn := fun _ _ _ => Except.error (Exn.fetchError "connection refused")

/-- A fresh container bound to the failing fetcher. -/
def sdBoom : StockData := StockData.init fetchBoom

/-- C1 counterexample: loading an empty fetch result (zero rows, zero columns)
stores an empty cleaned table, and `normalize` / `cumulative_returns` then
raise `IndexError` (from `iloc[0]`) instead of returning empty tables. -/
theorem empty_table_error_cex :
    (StockData.init fetchEmpty).load [] "2020-01-01" "2020-12-31" = Except.ok sdEmpty ∧
    sdEmpty.prices = some emptyDF ∧
    sdEmpty.normalize = Except.error Exn.indexError ∧
    sdEmpty.cumulative_returns = Except.error Exn.indexError :=
  ⟨rfl, rfl, rfl, rfl⟩

/-- C1 (amended): with an empty cleaned table stored, `daily_returns` returns
an empty table without error, but on a zero-row table `normalize` and
`cumulative_returns` raise `IndexError` (not the "no data loaded"
`ValueError`); on a table with rows but zero columns all three return
column-free tables without error. -/
theorem empty_table_derived (sd : StockData) :
    (sd.prices = some (DF.mk [] []) →
      sd.daily_returns = Except.ok (DF.mk [] []) ∧
      sd.normalize = Except.error Exn.indexError ∧
      sd.cumulative_returns = Except.error Exn.indexError) ∧
    (∀ idx : List Nat, idx ≠ [] → sd.prices = some (DF.mk idx []) →
      sd.normalize = Except.ok (DF.mk idx []) ∧
      sd.daily_returns = Except.ok (DF.mk (List.drop 1 idx) []) ∧
      sd.cumulative_returns = Except.ok (DF.mk idx [])) := by
  constructor
  · intro h
    refine ⟨?_, ?_, ?_⟩ <;>
      simp [StockData.daily_returns, StockData.normalize, StockData.cumulative_returns,
        h, dfTail, pctChangeDF, normalizeDF, cumulativeDF]
  · intro idx hne h
    have hlen : ¬ idx.length = 0 := by simpa using hne
    refine ⟨?_, ?_, ?_⟩ <;>
      simp [StockData.daily_returns, StockData.normalize, StockData.cumulative_returns,
        h, hlen, dfTail, pctChangeDF, normalizeDF, cumulativeDF]

/-- C1 witness: the amended statement applied to the loaded empty container
and to a loaded rows-but-no-columns container. -/
theorem empty_table_derived_witness :
    (sdEmpty.daily_returns = Except.ok (DF.mk [] []) ∧
      sdEmpty.normalize = Except.error Exn.indexError ∧
      sdEmpty.cumulative_returns = Except.error Exn.indexError) ∧
    (sdNoCols.normalize = Except.ok (DF.mk [10, 11] []) ∧
      sdNoCols.daily_returns = Except.ok (DF.mk (List.drop 1 [10, 11]) []) ∧
      sdNoCols.cumulative_returns = Except.ok (DF.mk [10, 11] [])) :=
  ⟨(empty_table_derived sdEmpty).1 rfl,
   (empty_table_derived sdNoCols).2 [10, 11] (by decide) rfl⟩

/-- C4: on a freshly constructed container (no `load` call, `prices` absent),
each derived-metric method fails with the "no data loaded" `ValueError`
instructing to call `load` first (the spec's StateError), and none returns a
table. -/
theorem unloaded_state_error (f : FetchFn) :
    (StockData.init f).normalize =
      Except.error (Exn.valueError "No data loaded. Call load() first.") ∧
    (StockData.init f).daily_returns =
      Except.error (Exn.valueError "No data loaded. Call load() first.") ∧
    (StockData.init f).cumulative_returns =
      Except.error (Exn.valueError "No data loaded. Call load() first.") :=
  ⟨rfl, rfl, rfl⟩

/-- C5: when the fetcher raises, `load` propagates exactly that exception and
the container keeps its prior state (the error carries `sd` unchanged, so
`raw` and `prices` retain their previous values). -/
theorem load_propagates_fetch_error (sd : StockData) (symbols : List String)
    (s e : String) (ex : Exn) (h : sd.fetch symbols s e = Except.error ex) :
    sd.load symbols s e = Except.error (ex, sd) := by
  simp [StockData.load, h]

/-- C5 witness: a never-loaded container with a raising fetcher. -/
theorem load_propagates_fetch_error_witness :
    sdBoom.load ["AAPL"] "2020-01-01" "2023-01-01" =
      Except.error (Exn.fetchError "connection refused", sdBoom) :=
  load_propagates_fetch_error sdBoom ["AAPL"] "2020-01-01" "2023-01-01"
    (Exn.fetchError "connection refused") rfl

/-- C9: the three derived-metric methods are pure: called twice in a row they
return identical results, and neither call changes `raw` or `prices` (the
method bodies assign to no field, so their state effect is the identity). -/
theorem derived_methods_pure (sd : StockData) :
    sd.normalizeCall.2.normalizeCall.1 = sd.normalizeCall.1 ∧
    sd.normalizeCall.2.normalizeCall.2.raw = sd.raw ∧
    sd.normalizeCall.2.normalizeCall.2.prices = sd.prices ∧
    sd.daily_returnsCall.2.daily_returnsCall.1 = sd.daily_returnsCall.1 ∧
    sd.daily_returnsCall.2.daily_returnsCall.2.raw = sd.raw ∧
    sd.daily_returnsCall.2.daily_returnsCall.2.prices = sd.prices ∧
    sd.cumulative_returnsCall.2.cumulative_returnsCall.1 = sd.cumulative_returnsCall.1 ∧
    sd.cumulative_returnsCall.2.cumulative_returnsCall.2.raw = sd.raw ∧
    sd.cumulative_returnsCall.2.cumulative_returnsCall.2.prices = sd.prices :=
  ⟨rfl, rfl, rfl, rfl, rfl, rfl, rfl, rfl, rfl⟩

/-- C2: cleaning maps `cleanCol` over the columns; on any column, a missing
cell with an earlier non-missing value becomes the nearest preceding
non-missing value; a leading missing cell with no earlier value becomes the
nearest following non-missing value; an all-missing column is unchanged; and
a column with any non-missing value has no missing cell after cleaning. -/
theorem clean_fill_spec (df : DF) (col : List Cell) (i : Nat) :
    (cleanDF df).index = df.index ∧
    (cleanDF df).cols = df.cols.map (fun p => (p.1, cleanCol p.2)) ∧
    (i < col.length → Cell.isna (col.getD i Cell.nan) = true →
      ∀ v, lastD none (col.take i) = some v → (cleanCol col).getD i Cell.nan = v) ∧
    (i < col.length → Cell.isna (col.getD i Cell.nan) = true →
      lastD none (col.take i) = none →
      ∀ v, firstD (col.drop (i + 1)) = some v → (cleanCol col).getD i Cell.nan = v) ∧
    ((∀ x ∈ col, Cell.isna x = true) → cleanCol col = col) ∧
    ((∃ x ∈ col, Cell.isna x = false) → i < col.length →
      Cell.isna ((cleanCol col).getD i Cell.nan) = false) := by
  refine ⟨rfl, rfl, ?_, ?_, cleanCol_all_na col, fun hex h => cleanCol_no_na col hex i h⟩
  · intro h hna v hv
    have htake : lastD none (col.take (i + 1)) = some v := by
      rw [take_succ_getD col i h, lastD_concat, if_pos hna]
      exact hv
    rw [cleanCol_getD col i h, htake]
    rfl
  · intro h hna hnone v hv
    have htake : lastD none (col.take (i + 1)) = none := by
      rw [take_succ_getD col i h, lastD_concat, if_pos hna]
      exact hnone
    rw [cleanCol_getD col i h, htake, hv]
    rfl

/-- C2 witness: gap fill, leading fill, all-missing column, and the
no-missing-after-cleaning invariant, each on a concrete column. -/
theorem clean_fill_spec_witness :
    (cleanCol [Cell.val 10, Cell.nan, Cell.val 20]).getD 1 Cell.nan = Cell.val 10 ∧
    (cleanCol [Cell.nan, Cell.val 7]).getD 0 Cell.nan = Cell.val 7 ∧
    cleanCol [Cell.nan, Cell.nan] = [Cell.nan, Cell.nan] ∧
    Cell.isna ((cleanCol [Cell.val 10, Cell.nan, Cell.val 20]).getD 1 Cell.nan) = false :=
  ⟨(clean_fill_spec emptyDF [Cell.val 10, Cell.nan, Cell.val 20] 1).2.2.1
     (by decide) (by decide) (Cell.val 10) (by decide),
   (clean_fill_spec emptyDF [Cell.nan, Cell.val 7] 0).2.2.2.1
     (by decide) (by decide) (by decide) (Cell.val 7) (by decide),
   (clean_fill_spec emptyDF [Cell.nan, Cell.nan] 0).2.2.2.2.1 (by decide),
   (clean_fill_spec emptyDF [Cell.val 10, Cell.nan, Cell.val 20] 1).2.2.2.2.2
     (by decide) (by decide)⟩

/-- C3 counterexample: a column whose first price is the non-missing value 0.0
normalizes to NaN (0/0) on the first row, not 1.0. -/
theorem normalize_first_row_cex :
    Cell.isna (Cell.val 0) = false ∧
    sdZero.prices = some (DF.mk [7] [("A", [Cell.val 0])]) ∧
    sdZero.normalize = Except.ok (DF.mk [7] [("A", [Cell.nan])]) ∧
    Cell.nan ≠ Cell.val 1 :=
  ⟨rfl, rfl, rfl, by decide⟩

/-- C3 (amended): on a non-empty stored table, `normalize` divides each cell
by its column's first cell, and every column whose first price is present,
finite, and nonzero starts at exactly 1.0. -/
theorem normalize_spec (sd : StockData) (p : DF)
    (hp : sd.prices = some p) (hne : p.index ≠ []) :
    sd.normalize = Except.ok (normalizeDF p) ∧
    (normalizeDF p).index = p.index ∧
    (normalizeDF p).cols = p.cols.map (fun nc => (nc.1, normCol nc.2)) ∧
    (∀ nc ∈ p.cols, ∀ t, t < nc.2.length →
      (normCol nc.2).getD t Cell.nan =
        Cell.div (nc.2.getD t Cell.nan) (nc.2.getD 0 Cell.nan)) ∧
    (∀ nc ∈ p.cols, ∀ q : ℚ, nc.2.headD Cell.nan = Cell.val q → q ≠ 0 →
      (normCol nc.2).headD Cell.nan = Cell.val 1) := by
  have hlen : ¬ p.index.length = 0 := by simpa using hne
  refine ⟨by simp [StockData.normalize, hp, hlen], rfl, rfl, ?_, ?_⟩
  · intro nc _ t ht
    rw [show normCol nc.2 = nc.2.map (fun x => Cell.div x (nc.2.headD Cell.nan)) from rfl,
      getD_map_cell _ _ t ht]
    congr 1
    cases hc : nc.2 with
    | nil => rw [hc] at ht; simp at ht
    | cons x xs => rfl
  · intro nc _ q hq hq0
    cases hc : nc.2 with
    | nil => rw [hc] at hq; cases hq
    | cons x xs =>
      rw [hc] at hq
      simp only [List.headD_cons] at hq
      subst hq
      simp [normCol, Cell.div, if_neg hq0, div_self hq0]

/-- C3 witness: the amended statement applied to a loaded container whose
column starts at 1.0. -/
theorem normalize_spec_witness :
    sdOne.normalize = Except.ok (normalizeDF (cleanDF dfOne)) ∧
    (normCol (cleanCol [Cell.val 1, Cell.val 3])).headD Cell.nan = Cell.val 1 :=
  ⟨(normalize_spec sdOne (cleanDF dfOne) rfl (by decide)).1,
   (normalize_spec sdOne (cleanDF dfOne) rfl (by decide)).2.2.2.2
     ("A", cleanCol [Cell.val 1, Cell.val 3]) (by decide) 1 (by decide) (by decide)⟩

/-- C6 counterexample: loading an empty table gives `daily_returns` with zero
rows while the cleaned table also has zero rows, so the output does not have
exactly one fewer row. -/
theorem daily_returns_rowcount_cex :
    sdEmpty.prices = some emptyDF ∧
    sdEmpty.daily_returns = Except.ok emptyDF ∧
    emptyDF.index.length + 1 ≠ emptyDF.index.length :=
  ⟨rfl, rfl, by decide⟩

/-- C6 (amended): on a loaded container whose cleaned table has at least one
row, `daily_returns` drops the first row and returns exactly one fewer row;
per column, cell `t` of the output is `p[t+1] / p[t] - 1` (as pandas
computes it), which equals the claimed `(p[t+1] - p[t]) / p[t]` whenever the
two prices involved are not infinite. -/
theorem daily_returns_spec (sd : StockData) (df0 : DF)
    (hp : sd.prices = some (cleanDF df0)) (hne : (cleanDF df0).index ≠ []) :
    sd.daily_returns = Except.ok (dfTail (pctChangeDF (cleanDF df0))) ∧
    (dfTail (pctChangeDF (cleanDF df0))).index.length + 1 =
      (cleanDF df0).index.length ∧
    (dfTail (pctChangeDF (cleanDF df0))).cols =
      (cleanDF df0).cols.map (fun nc => (nc.1, (pctCol nc.2).drop 1)) ∧
    (∀ nc ∈ (cleanDF df0).cols, ∀ t, t + 1 < nc.2.length →
      ((pctCol nc.2).drop 1).getD t Cell.nan =
        Cell.sub (Cell.div (nc.2.getD (t + 1) Cell.nan) (nc.2.getD t Cell.nan))
          (Cell.val 1)) ∧
    (∀ nc ∈ (cleanDF df0).cols, ∀ t, t + 1 < nc.2.length →
      Cell.notInf (nc.2.getD (t + 1) Cell.nan) → Cell.notInf (nc.2.getD t Cell.nan) →
      ((pctCol nc.2).drop 1).getD t Cell.nan =
        Cell.div (Cell.sub (nc.2.getD (t + 1) Cell.nan) (nc.2.getD t Cell.nan))
          (nc.2.getD t Cell.nan)) := by
  have hlen : ¬ (cleanDF df0).index.length = 0 := by simpa using hne
  refine ⟨by simp [StockData.daily_returns, hp], ?_, ?_, ?_, ?_⟩
  · simp only [dfTail, pctChangeDF, List.length_drop]
    omega
  · simp only [dfTail, pctChangeDF, cleanDF, List.map_map]
    apply List.map_congr_left
    intro r _
    simp [Function.comp, ffillCol_cleanCol]
  · intro nc _ t ht
    exact pctCol_drop_getD nc.2 t ht
  · intro nc _ t ht h1 h2
    rw [pctCol_drop_getD nc.2 t ht, ← sub_div_eq_div_sub_one _ _ h1 h2]

/-- C6 witness: the amended statement applied to a loaded two-row container. -/
theorem daily_returns_spec_witness :
    sdOne.daily_returns = Except.ok (dfTail (pctChangeDF (cleanDF dfOne))) ∧
    (dfTail (pctChangeDF (cleanDF dfOne))).index.length + 1 =
      (cleanDF dfOne).index.length ∧
    ((pctCol (cleanCol [Cell.val 1, Cell.val 3])).drop 1).getD 0 Cell.nan =
      Cell.sub
        (Cell.div ((cleanCol [Cell.val 1, Cell.val 3]).getD 1 Cell.nan)
          ((cleanCol [Cell.val 1, Cell.val 3]).getD 0 Cell.nan))
        (Cell.val 1) ∧
    ((pctCol (cleanCol [Cell.val 1, Cell.val 3])).drop 1).getD 0 Cell.nan =
      Cell.div
        (Cell.sub ((cleanCol [Cell.val 1, Cell.val 3]).getD 1 Cell.nan)
          ((cleanCol [Cell.val 1, Cell.val 3]).getD 0 Cell.nan))
        ((cleanCol [Cell.val 1, Cell.val 3]).getD 0 Cell.nan) :=
  ⟨(daily_returns_spec sdOne dfOne rfl (by decide)).1,
   (daily_returns_spec sdOne dfOne rfl (by decide)).2.1,
   (daily_returns_spec sdOne dfOne rfl (by decide)).2.2.2.1
     ("A", cleanCol [Cell.val 1, Cell.val 3]) (by decide) 0 (by decide),
   (daily_returns_spec sdOne dfOne rfl (by decide)).2.2.2.2
     ("A", cleanCol [Cell.val 1, Cell.val 3]) (by decide) 0 (by decide)
     (by exact ⟨by decide, by decide⟩) (by exact ⟨by decide, by decide⟩)⟩

/-- C7 counterexample: on a loaded empty table, `cumulative_returns` raises
`IndexError` instead of returning a table with the same (zero) row count. -/
theorem cumulative_returns_empty_cex :
    sdEmpty.prices = some emptyDF ∧
    sdEmpty.cumulative_returns = Except.error Exn.indexError :=
  ⟨rfl, rfl⟩

/-- C7 (amended): on a non-empty stored table, `cumulative_returns` computes
`p[t] / p[0] - 1` per column with the same index (hence row count) as the
cleaned table, and every column whose first price is present, finite, and
nonzero starts at exactly 0.0. -/
theorem cumulative_returns_spec (sd : StockData) (p : DF)
    (hp : sd.prices = some p) (hne : p.index ≠ []) :
    sd.cumulative_returns = Except.ok (cumulativeDF p) ∧
    (cumulativeDF p).index = p.index ∧
    (cumulativeDF p).cols = p.cols.map (fun nc => (nc.1, cumCol nc.2)) ∧
    (∀ nc ∈ p.cols, ∀ t, t < nc.2.length →
      (cumCol nc.2).getD t Cell.nan =
        Cell.sub (Cell.div (nc.2.getD t Cell.nan) (nc.2.getD 0 Cell.nan))
          (Cell.val 1)) ∧
    (∀ nc ∈ p.cols, ∀ q : ℚ, nc.2.headD Cell.nan = Cell.val q → q ≠ 0 →
      (cumCol nc.2).headD Cell.nan = Cell.val 0) := by
  have hlen : ¬ p.index.length = 0 := by simpa using hne
  refine ⟨by simp [StockData.cumulative_returns, hp, hlen], rfl, rfl, ?_, ?_⟩
  · intro nc _ t ht
    rw [show cumCol nc.2 =
        nc.2.map (fun x => Cell.sub (Cell.div x (nc.2.headD Cell.nan)) (Cell.val 1))
        from rfl,
      getD_map_cell _ _ t ht]
    congr 2
    cases hc : nc.2 with
    | nil => rw [hc] at ht; simp at ht
    | cons x xs => rfl
  · intro nc _ q hq hq0
    cases hc : nc.2 with
    | nil => rw [hc] at hq; cases hq
    | cons x xs =>
      rw [hc] at hq
      simp only [List.headD_cons] at hq
      subst hq
      simp [cumCol, Cell.div, Cell.sub, if_neg hq0, div_self hq0]

/-- C7 witness: the amended statement applied to a loaded container whose
column starts at 0.0 cumulative return. -/
theorem cumulative_returns_spec_witness :
    sdOne.cumulative_returns = Except.ok (cumulativeDF (cleanDF dfOne)) ∧
    (cumulativeDF (cleanDF dfOne)).index = (cleanDF dfOne).index ∧
    (cumCol (cleanCol [Cell.val 1, Cell.val 3])).headD Cell.nan = Cell.val 0 :=
  ⟨(cumulative_returns_spec sdOne (cleanDF dfOne) rfl (by decide)).1,
   (cumulative_returns_spec sdOne (cleanDF dfOne) rfl (by decide)).2.1,
   (cumulative_returns_spec sdOne (cleanDF dfOne) rfl (by decide)).2.2.2.2
     ("A", cleanCol [Cell.val 1, Cell.val 3]) (by decide) 1 (by decide) (by decide)⟩

/-- C8 counterexample: dividing the non-zero price 5.0 by the zero first
price yields +∞ — a non-missing cell — inside `normalize`'s output, so
division by zero does not always produce a missing result. -/
theorem division_by_zero_cex :
    sdDivZero.prices = some (DF.mk [1, 2] [("A", [Cell.val 0, Cell.val 5])]) ∧
    sdDivZero.normalize = Except.ok (DF.mk [1, 2] [("A", [Cell.nan, Cell.pinf])]) ∧
    Cell.isna Cell.pinf = false :=
  ⟨rfl, rfl, rfl⟩

/-- C8 (amended): the derived computations never raise on zero or missing
divisors (they return tables); division by a missing value, and `0 / 0`,
produce missing cells and missing propagates through subtraction; but a
nonzero finite value divided by zero produces a signed infinity, which is
not missing; a column with a missing first price normalizes to an
all-missing column. -/
theorem division_missing_spec (sd : StockData) (p : DF)
    (hp : sd.prices = some p) (hne : p.index ≠ []) :
    sd.normalize = Except.ok (normalizeDF p) ∧
    sd.daily_returns = Except.ok (dfTail (pctChangeDF p)) ∧
    sd.cumulative_returns = Except.ok (cumulativeDF p) ∧
    (∀ x : Cell, Cell.div x Cell.nan = Cell.nan ∧ Cell.div Cell.nan x = Cell.nan ∧
      Cell.sub x Cell.nan = Cell.nan ∧ Cell.sub Cell.nan x = Cell.nan) ∧
    Cell.div (Cell.val 0) (Cell.val 0) = Cell.nan ∧
    (∀ q : ℚ, q ≠ 0 → Cell.isna (Cell.div (Cell.val q) (Cell.val 0)) = false) ∧
    (∀ nc ∈ p.cols, Cell.isna (nc.2.headD Cell.nan) = true →
      ∀ t, t < nc.2.length → Cell.isna ((normCol nc.2).getD t Cell.nan) = true) := by
  have hlen : ¬ p.index.length = 0 := by simpa using hne
  refine ⟨by simp [StockData.normalize, hp, hlen],
    by simp [StockData.daily_returns, hp],
    by simp [StockData.cumulative_returns, hp, hlen],
    ?_, by decide, ?_, ?_⟩
  · intro x
    exact ⟨div_nan_right x, by cases x <;> rfl, sub_nan_right x, by cases x <;> rfl⟩
  · intro q hq
    by_cases hq' : 0 < q <;> simp [Cell.div, Cell.isna, hq, hq']
  · intro nc _ hna t ht
    rw [show normCol nc.2 = nc.2.map (fun x => Cell.div x (nc.2.headD Cell.nan)) from rfl,
      getD_map_cell _ _ t ht, (Cell.isna_iff _).mp hna, div_nan_right]
    rfl

/-- C8 witness: the amended statement applied to the loaded container whose
column starts at price 0.0. -/
theorem division_missing_spec_witness :
    sdDivZero.normalize = Except.ok (normalizeDF (cleanDF dfDivZero)) ∧
    Cell.isna (Cell.div (Cell.val 5) (Cell.val 0)) = false ∧
    Cell.div Cell.pinf Cell.nan = Cell.nan :=
  ⟨(division_missing_spec sdDivZero (cleanDF dfDivZero) rfl (by decide)).1,
   (division_missing_spec sdDivZero (cleanDF dfDivZero) rfl (by decide)).2.2.2.2.2.1
     5 (by decide),
   ((division_missing_spec sdDivZero (cleanDF dfDivZero) rfl (by decide)).2.2.2.1
     Cell.pinf).1⟩

/-- C10: when both calls succeed on a stored non-empty table,
`cumulative_returns` is `normalize` minus 1.0 cell-for-cell, with identical
index and column labels, and subtracting 1.0 maps missing cells exactly to
missing cells. -/
theorem cumulative_eq_normalize_minus_one (sd : StockData) (p : DF)
    (hp : sd.prices = some p) (hne : p.index ≠ []) :
    sd.normalize = Except.ok (normalizeDF p) ∧
    sd.cumulative_returns = Except.ok (cumulativeDF p) ∧
    (cumulativeDF p).index = (normalizeDF p).index ∧
    (cumulativeDF p).cols =
      (normalizeDF p).cols.map
        (fun nc => (nc.1, nc.2.map (fun x => Cell.sub x (Cell.val 1)))) ∧
    (∀ x : Cell, Cell.isna (Cell.sub x (Cell.val 1)) = Cell.isna x) := by
  have hlen : ¬ p.index.length = 0 := by simpa using hne
  refine ⟨by simp [StockData.normalize, hp, hlen],
    by simp [StockData.cumulative_returns, hp, hlen], rfl, ?_, isna_sub_one⟩
  simp only [cumulativeDF, normalizeDF, List.map_map]
  apply List.map_congr_left
  intro r _
  simp [Function.comp, cumCol, normCol, List.map_map]

/-- C10 witness: the relation applied to a loaded two-row container. -/
theorem cumulative_eq_normalize_minus_one_witness :
    sdOne.cumulative_returns = Except.ok (cumulativeDF (cleanDF dfOne)) ∧
    (cumulativeDF (cleanDF dfOne)).cols =
      (normalizeDF (cleanDF dfOne)).cols.map
        (fun nc => (nc.1, nc.2.map (fun x => Cell.sub x (Cell.val 1)))) :=
  ⟨(cumulative_eq_normalize_minus_one sdOne (cleanDF dfOne) rfl (by decide)).2.1,
   (cumulative_eq_normalize_minus_one sdOne (cleanDF dfOne) rfl (by decide)).2.2.2.1⟩
